import Mathlib

/-! Verification of the span repository: the holdings/licensing engine
(CombineDatum, ParseDelay, Entitlement.Delay, HoldingsMap), the filter set and
ISIL tagger, and the batched line pipeline of cmd/span-import.
Strings are embedded as Lean strings (lists of characters); Go byte-wise
string comparison is modelled by code-point comparison, which agrees on the
ASCII data these functions handle. Durations are nanosecond counts as in Go's
time.Duration, with 64-bit wraparound made explicit where it matters. -/

namespace Span

/-! ## Character and string basics -/

/-- Numeric value of an ASCII digit character. -/
def digitVal (c : Char) : Nat := c.toNat - 48

/-- Every character is an ASCII digit. -/
def allDigits (s : List Char) : Bool := s.all fun c => 48 ≤ c.toNat && c.toNat ≤ 57

/-- Numeric value of a decimal digit string (leading zeros allowed). -/
def strVal : List Char → Nat
  | [] => 0
  | c :: cs => digitVal c * 10 ^ cs.length + strVal cs

/-- Byte-wise lexicographic strict order on strings, as Go compares strings. -/
def lexLt : List Char → List Char → Bool
  | _, [] => false
  | [], _ :: _ => true
  | a :: as, b :: bs =>
    if a.toNat < b.toNat then true
    else if b.toNat < a.toNat then false
    else lexLt as bs

/-- Lexicographic strict order on Lean strings via their character lists. -/
def strLt (a b : String) : Bool := lexLt a.data b.data

/-- Left-pad a character list with zeros to width n, as Go fmt's %0Ns verb
(no truncation when the input is longer than n). -/
def padL (n : Nat) (s : List Char) : List Char :=
  List.replicate (n - s.length) '0' ++ s

/-- Left-pad a string with zeros to width n. -/
def padZero (n : Nat) (s : String) : String := ⟨padL n s.data⟩

/-- Numeric value of a decimal string. -/
def strValS (s : String) : Nat := strVal s.data

/-! ## CombineDatum (src/unnamed/part_000, lines 69-74) -/

/-- CombineDatum combines year, volume and issue into one fixed-width value:
the sentinel when all three are empty and a sentinel was supplied, otherwise
the concatenation of year %04s, volume %06s, issue %06s. -/
def CombineDatum (year volume issue empty : String) : String :=
  if year = "" ∧ volume = "" ∧ issue = "" ∧ empty ≠ "" then empty
  else padZero 4 year ++ padZero 6 volume ++ padZero 6 issue

/-! ## Reading newline-delimited input
bufio.Reader.ReadString('\n') returns each line with its terminator; when the
input ends without a final newline it returns the partial data together with
io.EOF, and both loops in this repository break on io.EOF before using the
returned data, so an unterminated final line is dropped. -/

/-- Accumulates characters of the current line; at end of input the pending
partial line is discarded, as the callers break on io.EOF. -/
def readLinesAux : List Char → List Char → List String
  | [], _ => []
  | c :: rest, acc =>
    if c = '\n' then String.mk (acc ++ [c]) :: readLinesAux rest []
    else readLinesAux rest (acc ++ [c])

/-- The newline-terminated lines a ReadString loop yields from an input. -/
def readLines (input : List Char) : List String := readLinesAux input []

/-! ## The reader loop of BatchedLDJProcessor (src/finc/schema.go, lines 68-91)
The batch starts as make([]string, BatchSize) - that is, BatchSize empty
strings, appended to rather than replaced - and after each handoff the counter
is set to 1 and then incremented at the end of the same iteration. -/

/-- One step per input line: append the line to the batch, hand the batch off
when the counter reaches the batch size; at end of input hand off the final
batch. The counter is 2, not 1, right after a handoff because the Go code runs
i = 1 followed by i++ in the same iteration. -/
def readerLoop (B : Nat) : List String → List String → Nat → List (List String)
  | [], batch, _ => [batch]
  | l :: rest, batch, i =>
    if i = B then (batch ++ [l]) :: readerLoop B rest [] 2
    else readerLoop B rest (batch ++ [l]) (i + 1)

/-- All batches the reader hands off, in order, for a given batch size. -/
def readerBatches (B : Nat) (lines : List String) : List (List String) :=
  readerLoop B lines (List.replicate B "") 1

/-! ## Worker and pipeline output (src/finc/schema.go, lines 95-129)
The per-line work - json.Unmarshal into a crossref.Document, ToSolrSchema,
SetTags, json.Marshal - lives outside src/, so it is one abstract transform
parameter: some = the serialized record, none = a transform error, which the
worker skips under IgnoreErrors=true. Workers never communicate, so the
multiset of emitted records is the concatenation over batches regardless of
worker count or collector interleaving. -/

/-- Records one worker emits for one batch under IgnoreErrors=true. -/
def workerOutputs (t : String → Option String) (lines : List String) : List String :=
  lines.filterMap t

/-- The multiset of records the batch pipeline emits for an input, as the
concatenation over the handed-off batches. -/
def pipelineOutputs (t : String → Option String) (B : Nat) (input : List Char) :
    List String :=
  ((readerBatches B (readLines input)).map (workerOutputs t)).flatten

/-- The records produced by sequentially transforming every input line. -/
def sequentialOutputs (t : String → Option String) (input : List Char) : List String :=
  (readLines input).filterMap t

/-- A transform that serializes every line, the empty line included. -/
def demoTransform (s : String) : Option String := some ("R" ++ s)

/-! ## NewListFilter (src/unnamed/part_001, lines 147-164) -/

/-- Characters strings.TrimSpace removes (the ASCII ones; the data here is
ASCII). -/
def isSpaceChar (c : Char) : Bool :=
  c = ' ' || c = '\t' || c = '\n' || c = '\r' || c = '\x0b' || c = '\x0c'

/-- strings.TrimSpace on a character list. -/
def trimL (s : List Char) : List Char :=
  ((s.dropWhile isSpaceChar).reverse.dropWhile isSpaceChar).reverse

/-- strings.TrimSpace. -/
def trimS (s : String) : String := ⟨trimL s.data⟩

/-- StringSet.Add: duplicates are ignored. -/
def setAdd (xs : List String) (x : String) : List String :=
  if x ∈ xs then xs else xs ++ [x]

/-- NewListFilter reads one token per line, skips blank lines, and collects the
trimmed tokens into a set; the loop breaks on io.EOF like the pipeline reader. -/
def NewListFilter (input : List Char) : List String :=
  (readLines input).foldl
    (fun acc line => if trimS line = "" then acc else setAdd acc (trimS line)) []

/-! ## ParseDelay and Entitlement.Delay (src/unnamed/part_000, lines 108-140;
older copy in src/holdings/ovid.go, lines 71-100)
Durations are nanosecond counts; day, month and year are the constants of the
holdings package. strconv.Atoi and the duration multiplication are 64-bit, so
the Atoi range check and the multiplication wraparound are modelled explicitly
(64-bit platform, where Go's int is int64). -/

/-- Errors of the holdings package: errUnknownFormat, errUnknownUnit,
errDelayMismatch, and the range error strconv.Atoi returns for an integer that
does not fit in int64. -/
inductive HErr where
  | unknownFormat
  | unknownUnit
  | delayMismatch
  | atoiRange
deriving DecidableEq

/-- One day in nanoseconds (24 * time.Hour). -/
def dayNs : Int := 86400000000000

/-- One month in nanoseconds (30 * day). -/
def monthNs : Int := 30 * dayNs

/-- One year in nanoseconds (12 * month = 360 days). -/
def yearNs : Int := 12 * monthNs

/-- Two's-complement wraparound of an integer into int64, as Go's silent
overflow of a time.Duration multiplication. -/
def wrap64 (x : Int) : Int := (x + 2 ^ 63) % 2 ^ 64 - 2 ^ 63

/-- Matching of the delay pattern of the regex: a minus sign, one or more
digits, then the unit letter M or Y; on a match, the digits of the first group
and the unit letter of the second. -/
def delayMatch (s : String) : Option (List Char × Char) :=
  match s.data with
  | [] => none
  | c :: rest =>
    if c = '-' then
      match rest.getLast? with
      | none => none
      | some u =>
        if rest.dropLast ≠ [] ∧ allDigits rest.dropLast = true ∧ (u = 'M' ∨ u = 'Y')
        then some (rest.dropLast, u) else none
    else none

/-- strconv.Atoi applied to the matched first group "-digits": the negated
value of the digits, or a range error when it does not fit in int64. -/
def atoiNeg (digits : List Char) : Except HErr Int :=
  if (strVal digits : Int) ≤ 2 ^ 63 then .ok (-(strVal digits : Int))
  else .error .atoiRange

/-- ParseDelay parses delay strings like -1M or -3Y: regex match (otherwise
errUnknownFormat), Atoi on the first group, then the value times year or month
with int64 wraparound; the default switch branch is errUnknownUnit. -/
def ParseDelay (s : String) : Except HErr Int :=
  match delayMatch s with
  | none => .error .unknownFormat
  | some (digits, u) =>
    match atoiNeg digits with
    | .error e => .error e
    | .ok v =>
      if u = 'Y' then .ok (wrap64 (v * yearNs))
      else if u = 'M' then .ok (wrap64 (v * monthNs))
      else .error .unknownUnit

/-- An OVID entitlement; the coverage fields are the strings of the XML
sub-elements (src/unnamed/part_000, lines 43-55). -/
structure Entitlement where
  Status : String
  URL : String
  Anchor : String
  FromYear : String
  FromVolume : String
  FromIssue : String
  FromDelay : String
  ToYear : String
  ToVolume : String
  ToIssue : String
  ToDelay : String

/-- Entitlement.Delay of src/unnamed/part_000, lines 129-140: reject a
mismatching pair of delays, otherwise parse the start delay, else the end
delay, else zero. -/
def Entitlement.Delay (e : Entitlement) : Except HErr Int :=
  if e.FromDelay ≠ "" ∧ e.ToDelay ≠ "" ∧ e.FromDelay ≠ e.ToDelay then
    .error .delayMismatch
  else if e.FromDelay ≠ "" then ParseDelay e.FromDelay
  else if e.ToDelay ≠ "" then ParseDelay e.ToDelay
  else .ok 0

/-- Entitlement.Delay as the older copy in src/holdings/ovid.go, lines 92-100,
has it: no mismatch check at all, the start delay simply takes priority. -/
def Entitlement.DelayOvid (e : Entitlement) : Except HErr Int :=
  if e.FromDelay ≠ "" then ParseDelay e.FromDelay
  else if e.ToDelay ≠ "" then ParseDelay e.ToDelay
  else .ok 0

deriving instance DecidableEq for Except

/-! ## Filters and the ISIL tagger (src/unnamed/part_001)
The intermediate schema type and the License type live outside src/ (the
filters only consume them), so both are modelled from the spec. Reference
times and wall boundaries are nanosecond instants. -/

/-- Modelled from the spec: the fields of a normalized intermediate-schema
record that the filters consume - ISSN list, e-ISSN list, publication year,
volume, issue and source identifier (finc.IntermediateSchema is not under
src/). -/
structure IntermediateSchema where
  SourceID : String
  ISSN : List String
  EISSN : List String
  DateYear : Int
  Volume : String
  Issue : String

/-- Modelled from the spec: a License is one serialized coverage range for an
ISSN - a lower and an upper datum string and a moving-wall delay (the License
type of holdings.ParseHoldings is not under src/). -/
structure License where
  low : String
  high : String
  delayNs : Int

/-- Modelled from the spec: a license covers a signature when the signature
lies between the range's datum strings in lexicographic order. -/
def License.Covers (l : License) (signature : String) : Bool :=
  !strLt signature l.low && !strLt l.high signature

/-- Modelled from the spec: the moving-wall boundary is the reference time
shifted by the delay. -/
def License.Wall (l : License) (ref : Int) : Int := ref + l.delayNs

/-- HoldingFilter of src/unnamed/part_001, lines 86-89: a reference time for
moving-wall calculations and a map from ISSNs to licenses, modelled as an
association list. -/
structure HoldingFilter where
  Ref : Int
  Table : List (String × List License)

/-- Go map lookup on the association-list table. -/
def lookupLicenses (table : List (String × List License)) (issn : String) :
    Option (List License) :=
  match table with
  | [] => none
  | (k, v) :: rest => if k = issn then some v else lookupLicenses rest issn

/-- CoveredAndValid of src/unnamed/part_001, lines 113-127: no table entry for
the ISSN means no valid license; otherwise some license must cover the
signature and have its wall strictly before the reference time. -/
def HoldingFilter.CoveredAndValid (f : HoldingFilter) (signature issn : String) :
    Bool :=
  match lookupLicenses f.Table issn with
  | none => false
  | some licenses =>
    licenses.any fun l => l.Covers signature && decide (l.Wall f.Ref < f.Ref)

/-- HoldingFilter.Apply of src/unnamed/part_001, lines 131-139: the record's
own datum against every ISSN and e-ISSN of the record. -/
def HoldingFilter.Apply (f : HoldingFilter) (is : IntermediateSchema) : Bool :=
  (is.ISSN ++ is.EISSN).any fun issn =>
    f.CoveredAndValid (CombineDatum (toString is.DateYear) is.Volume is.Issue "") issn

/-- ListFilter.Apply of src/unnamed/part_001, lines 172-179. -/
def listFilterApply (set : List String) (is : IntermediateSchema) : Bool :=
  (is.ISSN ++ is.EISSN).any fun issn => set.contains issn

/-- The closed set of filter kinds of src/unnamed/part_001: Any, SourceFilter,
ListFilter, HoldingFilter. -/
inductive Filter where
  | any : Filter
  | source (sourceID : String) : Filter
  | list (set : List String) : Filter
  | holding (hf : HoldingFilter) : Filter

/-- Filter.Apply, one evaluation per filter kind. -/
def Filter.apply : Filter → IntermediateSchema → Bool
  | .any, _ => true
  | .source sid, is => is.SourceID == sid
  | .list set, is => listFilterApply set is
  | .holding hf, is => hf.Apply is

/-- ISILTagger of src/unnamed/part_001, line 184: an ISIL maps to one or more
filters; modelled as an association list since Go map iteration is unordered. -/
abbrev ISILTagger := List (String × List Filter)

/-- Tags of src/unnamed/part_001, lines 187-197: every ISIL one of whose
filters accepts the record, collected into a set (isils.Add dedups; the order
of map iteration is immaterial, so the result is a Finset). -/
def tags (t : ISILTagger) (is : IntermediateSchema) : Finset String :=
  t.foldl (fun acc p => if p.2.any (fun f => f.apply is) then insert p.1 acc else acc) ∅

/-! ## HoldingsMap (src/unnamed/part_000, lines 152-183; identical logic in
src/holdings/ovid.go, lines 112-143)
The XML tokenizer is the standard library; the input is modelled as the
sequence of decoded Holding elements. Registration is the part under src/:
every e-ISSN, then every print-ISSN, trimmed and checked against the canonical
DDDD-DDDD pattern, the map entry overwritten on duplicates. -/

/-- A single holding (src/unnamed/part_000, lines 33-40). -/
structure Holding where
  EZBID : Int
  Title : String
  Publishers : String
  PISSN : List String
  EISSN : List String
  Entitlements : List Entitlement

/-- The canonical ISSN pattern: four digits, a hyphen, four digits. -/
def isISSN (s : String) : Bool :=
  match s.data with
  | [a, b, c, d, h, e, f, g, i] =>
    (48 ≤ a.toNat && a.toNat ≤ 57) && (48 ≤ b.toNat && b.toNat ≤ 57) &&
    (48 ≤ c.toNat && c.toNat ≤ 57) && (48 ≤ d.toNat && d.toNat ≤ 57) &&
    h = '-' &&
    (48 ≤ e.toNat && e.toNat ≤ 57) && (48 ≤ f.toNat && f.toNat ≤ 57) &&
    (48 ≤ g.toNat && g.toNat ≤ 57) && (48 ≤ i.toNat && i.toNat ≤ 57)
  | _ => false

/-- The inner registration loop: for every listed ISSN string, trim it and,
when it matches the canonical pattern, set the map entry to this holding. -/
def registerIds (item : Holding) : List String → (String → Option Holding) →
    (String → Option Holding)
  | [], m => m
  | s0 :: rest, m =>
    let tid := trimS s0
    registerIds item rest
      (if isISSN tid then fun k => if k = tid then some item else m k else m)

/-- The outer loop over decoded holding elements: e-ISSNs first, then
print-ISSNs, later holdings overwriting earlier entries. -/
def holdingsFrom : List Holding → (String → Option Holding) → (String → Option Holding)
  | [], m => m
  | item :: rest, m =>
    holdingsFrom rest (registerIds item item.PISSN (registerIds item item.EISSN m))

/-- HoldingsMap: the ISSN-to-holding map built from the decoded holdings,
starting from the empty map. -/
def HoldingsMap (hs : List Holding) : String → Option Holding :=
  holdingsFrom hs fun _ => none

/-- The trimmed ISSN strings one holding lists (e-ISSNs and print-ISSNs). -/
def trimmedIds (item : Holding) : List String :=
  item.EISSN.map trimS ++ item.PISSN.map trimS

/-- The last holding of the list that lists a key among its trimmed ISSNs. -/
def lastListing : List Holding → String → Option Holding
  | [], _ => none
  | item :: rest, key =>
    match lastListing rest key with
    | some h => some h
    | none => if key ∈ trimmedIds item then some item else none

/-! ## Order preservation of CombineDatum (claim C6)
CombineDatum with an empty sentinel pads each component to a fixed width, so
for digit strings within the padding widths (4, 6, 6) the lexicographic order
of the results is the numeric lexicographic order of the (year, volume, issue)
tuples. -/

/-- Numeric lexicographic order on (year, volume, issue) value tuples. -/
def tupleLt : Nat × Nat × Nat → Nat × Nat × Nat → Prop
  | (a1, b1, c1), (a2, b2, c2) =>
    a1 < a2 ∨ (a1 = a2 ∧ (b1 < b2 ∨ (b1 = b2 ∧ c1 < c2)))

instance (a b : Nat × Nat × Nat) : Decidable (tupleLt a b) :=
  match a, b with
  | (a1, b1, c1), (a2, b2, c2) =>
    inferInstanceAs (Decidable (a1 < a2 ∨ (a1 = a2 ∧ (b1 < b2 ∨ (b1 = b2 ∧ c1 < c2)))))

/-! ## Theorems for the pipeline claims -/

/-- C5: CombineDatum returns exactly the sentinel when all three components are
empty and the sentinel is non-empty; in every other case it returns the
concatenation of the year zero-padded to 4 digits, the volume zero-padded to 6
and the issue zero-padded to 6. -/
theorem combineDatum_cases (year volume issue empty : String) :
    (year = "" ∧ volume = "" ∧ issue = "" ∧ empty ≠ "" →
      CombineDatum year volume issue empty = empty)
  ∧ (¬(year = "" ∧ volume = "" ∧ issue = "" ∧ empty ≠ "") →
      CombineDatum year volume issue empty =
        padZero 4 year ++ padZero 6 volume ++ padZero 6 issue) := by
  refine ⟨fun h => ?_, fun h => ?_⟩
  · unfold CombineDatum; rw [if_pos h]
  · unfold CombineDatum; rw [if_neg h]

/-- C2: evaluation of the reader loop at BatchSize 2 on four input lines: the
first batch carries two phantom empty strings from make([]string, BatchSize),
the later batches carry BatchSize-1 lines because the counter is reset to 1 and
incremented in the same iteration, and the claimed partition into batches of
exactly two lines is not what the code hands off. -/
theorem readerBatches_two_by_four :
    readerBatches 2 ["a", "b", "c", "d"] = [["", "", "a", "b"], ["c"], ["d"], []]
  ∧ readerBatches 2 ["a", "b", "c", "d"] ≠ [["a", "b"], ["c", "d"], []] := by
  constructor <;> decide

/-- C1: on an input with zero lines and BatchSize 2 the pipeline still hands the
two phantom empty strings to the workers, so a transform that serializes the
empty line yields two output records where sequential processing of every input
line yields none; the output sets differ. -/
theorem pipeline_phantom_records :
    sequentialOutputs demoTransform [] = []
  ∧ pipelineOutputs demoTransform 2 [] = ["R", "R"] := by
  constructor <;> rfl

/-- Processing a newline-free tail leaves no line: the pending data is dropped
at io.EOF. -/
theorem readLinesAux_no_newline (p : List Char) (hp : '\n' ∉ p) (acc : List Char) :
    readLinesAux p acc = [] := by
  induction p generalizing acc with
  | nil => rfl
  | cons c rest ih =>
    have hc : c ≠ '\n' := fun h => hp (h ▸ List.mem_cons_self c rest)
    have hr : '\n' ∉ rest := fun h => hp (List.mem_cons_of_mem c h)
    simp only [readLinesAux, if_neg hc]
    exact ih hr _

/-- Appending a newline-free tail to any input changes no line. -/
theorem readLinesAux_append (s p : List Char) (hp : '\n' ∉ p) (acc : List Char) :
    readLinesAux (s ++ p) acc = readLinesAux s acc := by
  induction s generalizing acc with
  | nil =>
    simp only [List.nil_append]
    rw [readLinesAux_no_newline p hp acc]; rfl
  | cons c rest ih =>
    by_cases hc : c = '\n'
    · simp only [List.cons_append, readLinesAux, if_pos hc]
      exact congrArg (List.cons _) (ih [])
    · simp only [List.cons_append, readLinesAux, if_neg hc]
      exact ih _

/-- C10: a final input line not terminated by a newline is silently discarded:
it yields no line at all, hence no batch entry, no pipeline output record and
no list-filter set entry. -/
theorem final_partial_line_dropped (s p : List Char) (B : Nat)
    (t : String → Option String) (hp : '\n' ∉ p) :
    readLines (s ++ p) = readLines s
  ∧ pipelineOutputs t B (s ++ p) = pipelineOutputs t B s
  ∧ NewListFilter (s ++ p) = NewListFilter s := by
  have h : readLines (s ++ p) = readLines s := readLinesAux_append s p hp []
  exact ⟨h, by unfold pipelineOutputs; rw [h], by unfold NewListFilter; rw [h]⟩

/-- C10 witness at a concrete input: the unterminated final line "b" of
"a\nb" contributes nothing. -/
theorem final_partial_line_dropped_witness :
    readLines ("a\n".data ++ "b".data) = readLines "a\n".data
  ∧ pipelineOutputs demoTransform 1 ("a\n".data ++ "b".data) =
      pipelineOutputs demoTransform 1 "a\n".data
  ∧ NewListFilter ("a\n".data ++ "b".data) = NewListFilter "a\n".data :=
  final_partial_line_dropped "a\n".data "b".data 1 demoTransform (by decide)

/-- On a match, the unit letter is M or Y. -/
theorem delayMatch_unit {s : String} {digits : List Char} {u : Char}
    (h : delayMatch s = some (digits, u)) : u = 'M' ∨ u = 'Y' := by
  unfold delayMatch at h
  split at h
  · exact absurd h (by simp)
  · split at h
    · split at h
      · exact absurd h (by simp)
      · split at h
        · rename_i hcond
          obtain ⟨-, hu⟩ := Prod.mk.injEq .. ▸ Option.some.inj h
          exact hu ▸ hcond.2.2
        · exact absurd h (by simp)
    · exact absurd h (by simp)

/-- ParseDelay on a non-matching string. -/
theorem parseDelay_eq_of_none {s : String} (hm : delayMatch s = none) :
    ParseDelay s = .error .unknownFormat := by
  unfold ParseDelay; rw [hm]

/-- Atoi either fails with the range error or yields the negated value. -/
theorem atoiCases (digits : List Char) :
    atoiNeg digits = .error .atoiRange ∨ atoiNeg digits = .ok (-(strVal digits : Int)) := by
  unfold atoiNeg
  by_cases hle : (strVal digits : Int) ≤ 2 ^ 63
  · exact .inr (if_pos hle)
  · exact .inl (if_neg hle)

/-- ParseDelay when the regex matched and Atoi failed. -/
theorem parseDelay_eq_of_err {s : String} {digits : List Char} {u : Char} {e : HErr}
    (hm : delayMatch s = some (digits, u)) (ha : atoiNeg digits = .error e) :
    ParseDelay s = .error e := by
  unfold ParseDelay; rw [hm]
  show (match atoiNeg digits with
    | .error e => Except.error e
    | .ok v =>
      if u = 'Y' then .ok (wrap64 (v * yearNs))
      else if u = 'M' then .ok (wrap64 (v * monthNs))
      else .error HErr.unknownUnit) = Except.error e
  rw [ha]

/-- ParseDelay when the regex matched and Atoi succeeded: the unit switch. -/
theorem parseDelay_eq_of_ok {s : String} {digits : List Char} {u : Char} {v : Int}
    (hm : delayMatch s = some (digits, u)) (ha : atoiNeg digits = .ok v) :
    ParseDelay s =
      if u = 'Y' then .ok (wrap64 (v * yearNs))
      else if u = 'M' then .ok (wrap64 (v * monthNs))
      else .error .unknownUnit := by
  unfold ParseDelay; rw [hm]
  show (match atoiNeg digits with
    | .error e => Except.error e
    | .ok v =>
      if u = 'Y' then .ok (wrap64 (v * yearNs))
      else if u = 'M' then .ok (wrap64 (v * monthNs))
      else .error HErr.unknownUnit) = _
  rw [ha]

/-- ParseDelay never reports a delay mismatch: its errors are the format error,
the unreachable unit error and the Atoi range error. -/
theorem parseDelay_ne_delayMismatch (s : String) :
    ParseDelay s ≠ .error .delayMismatch := by
  rcases hm : delayMatch s with _ | ⟨digits, u⟩
  · rw [parseDelay_eq_of_none hm]; simp
  · rcases atoiCases digits with he | hv
    · rw [parseDelay_eq_of_err hm he]; simp
    · rw [parseDelay_eq_of_ok hm hv]
      by_cases hy : u = 'Y'
      · rw [if_pos hy]; simp
      · rw [if_neg hy]
        by_cases hmo : u = 'M'
        · rw [if_pos hmo]; simp
        · rw [if_neg hmo]; simp

/-- Wraparound is the identity on values that fit in int64. -/
theorem wrap64_eq_self (x : Int) (h1 : -(2 ^ 63) ≤ x) (h2 : x < 2 ^ 63) :
    wrap64 x = x := by
  unfold wrap64
  omega

/-- The value the digits of a matching delay string stand for fits in int64
whenever its product with a positive unit does. -/
theorem strVal_le_of_prod {n unit : Int} (hn : 0 ≤ n) (hunit : 1 ≤ unit)
    (hle : -(2 ^ 63) ≤ -n * unit) : n ≤ 2 ^ 63 := by
  nlinarith

/-- C7 (amended): a non-matching string fails with the format error; a matching
string whose signed value times the unit (30 days for M, 360 days for Y) fits
in int64 yields exactly that product; and no input reaches the unknown-unit
branch. Matching strings whose product leaves int64 wrap around (see the
counterexample), and ones whose integer itself leaves int64 fail with the Atoi
range error instead. -/
theorem parseDelay_spec :
    (∀ s : String, delayMatch s = none → ParseDelay s = .error .unknownFormat)
  ∧ (∀ (s : String) (digits : List Char),
      delayMatch s = some (digits, 'M') →
      -(2 ^ 63) ≤ -(strVal digits : Int) * monthNs →
      ParseDelay s = .ok (-(strVal digits : Int) * monthNs))
  ∧ (∀ (s : String) (digits : List Char),
      delayMatch s = some (digits, 'Y') →
      -(2 ^ 63) ≤ -(strVal digits : Int) * yearNs →
      ParseDelay s = .ok (-(strVal digits : Int) * yearNs))
  ∧ (∀ s : String, ParseDelay s ≠ .error .unknownUnit) := by
  have hnn : ∀ digits : List Char, (0 : Int) ≤ (strVal digits : Int) :=
    fun _ => Int.ofNat_nonneg _
  have hmonth : (1 : Int) ≤ monthNs := by norm_num [monthNs, dayNs]
  have hyear : (1 : Int) ≤ yearNs := by norm_num [yearNs, monthNs, dayNs]
  refine ⟨fun s h => parseDelay_eq_of_none h, fun s digits hm hle => ?_,
    fun s digits hm hle => ?_, fun s => ?_⟩
  · have hbound := strVal_le_of_prod (hnn digits) hmonth hle
    have hok : atoiNeg digits = .ok (-(strVal digits : Int)) := by
      unfold atoiNeg; rw [if_pos hbound]
    have hlt : -(strVal digits : Int) * monthNs < 2 ^ 63 := by nlinarith
    rw [parseDelay_eq_of_ok hm hok, if_neg (by decide), if_pos rfl,
      wrap64_eq_self _ hle hlt]
  · have hbound := strVal_le_of_prod (hnn digits) hyear hle
    have hok : atoiNeg digits = .ok (-(strVal digits : Int)) := by
      unfold atoiNeg; rw [if_pos hbound]
    have hlt : -(strVal digits : Int) * yearNs < 2 ^ 63 := by nlinarith
    rw [parseDelay_eq_of_ok hm hok, if_pos rfl, wrap64_eq_self _ hle hlt]
  · rcases hm : delayMatch s with _ | ⟨digits, u⟩
    · rw [parseDelay_eq_of_none hm]; simp
    · rcases atoiCases digits with he | hv
      · rw [parseDelay_eq_of_err hm he]; simp
      · rw [parseDelay_eq_of_ok hm hv]
        rcases delayMatch_unit hm with rfl | rfl
        · rw [if_neg (by decide), if_pos rfl]; simp
        · rw [if_pos rfl]; simp

/-- C7 witness: ParseDelay "-1Y" is exactly minus 360 days. -/
theorem parseDelay_spec_witness : ParseDelay "-1Y" = .ok (-31104000000000000) := by
  have h := parseDelay_spec.2.2.1 "-1Y" ['1'] (by decide) (by decide)
  rw [h]
  decide

/-- C7 counterexample: the matching string "-297Y" does not yield -297 times
360 days; the int64 multiplication wraps to a positive duration. -/
theorem parseDelay_overflow_cex :
    ParseDelay "-297Y" = .ok 9208856073709551616
  ∧ (-297 : Int) * yearNs = -9237888000000000000
  ∧ ParseDelay "-297Y" ≠ .ok ((-297 : Int) * yearNs) := by
  refine ⟨by decide, by decide, ?_⟩
  intro h
  rw [show ((-297 : Int) * yearNs) = -9237888000000000000 from by decide] at h
  exact absurd h (by decide)

/-- C3 (amended): the Delay of src/unnamed/part_000 fails with the mismatch
error exactly when both delay strings are non-empty and differ; otherwise it
parses whichever is present, the start delay taking priority, and yields zero
when neither is present. The older copy in src/holdings/ovid.go never reports a
mismatch: it parses the start delay unconditionally when present. -/
theorem entitlement_delay_spec (e : Entitlement) :
    (e.Delay = .error .delayMismatch ↔
      e.FromDelay ≠ "" ∧ e.ToDelay ≠ "" ∧ e.FromDelay ≠ e.ToDelay)
  ∧ (¬(e.FromDelay ≠ "" ∧ e.ToDelay ≠ "" ∧ e.FromDelay ≠ e.ToDelay) →
      e.FromDelay ≠ "" → e.Delay = ParseDelay e.FromDelay)
  ∧ (e.FromDelay = "" → e.ToDelay ≠ "" → e.Delay = ParseDelay e.ToDelay)
  ∧ (e.FromDelay = "" → e.ToDelay = "" → e.Delay = .ok 0)
  ∧ (e.DelayOvid ≠ .error .delayMismatch)
  ∧ (e.FromDelay ≠ "" → e.DelayOvid = ParseDelay e.FromDelay) := by
  refine ⟨?_, fun h hf => ?_, fun hf ht => ?_, fun hf ht => ?_, ?_, fun hf => ?_⟩
  · constructor
    · intro h
      by_contra hc
      unfold Entitlement.Delay at h
      rw [if_neg hc] at h
      by_cases hf : e.FromDelay ≠ ""
      · rw [if_pos hf] at h; exact parseDelay_ne_delayMismatch _ h
      · rw [if_neg hf] at h
        by_cases ht : e.ToDelay ≠ ""
        · rw [if_pos ht] at h; exact parseDelay_ne_delayMismatch _ h
        · rw [if_neg ht] at h; exact absurd h (by simp)
    · intro h
      unfold Entitlement.Delay
      rw [if_pos h]
  · unfold Entitlement.Delay
    rw [if_neg h, if_pos hf]
  · unfold Entitlement.Delay
    rw [if_neg (by simp [hf]), if_neg (by simp [hf]), if_pos ht]
  · unfold Entitlement.Delay
    rw [if_neg (by simp [hf]), if_neg (by simp [hf]), if_neg (by simp [ht])]
  · unfold Entitlement.DelayOvid
    by_cases hf : e.FromDelay ≠ ""
    · rw [if_pos hf]; exact parseDelay_ne_delayMismatch _
    · rw [if_neg hf]
      by_cases ht : e.ToDelay ≠ ""
      · rw [if_pos ht]; exact parseDelay_ne_delayMismatch _
      · rw [if_neg ht]; simp
  · unfold Entitlement.DelayOvid
    rw [if_pos hf]

/-- C3 witness: an entitlement with mismatching delays -1M and -2M is rejected
by the part_000 Delay. -/
theorem entitlement_delay_spec_witness :
    (⟨"", "", "", "", "", "", "-1M", "", "", "", "-2M"⟩ : Entitlement).Delay =
      .error .delayMismatch :=
  (entitlement_delay_spec _).1.mpr (by refine ⟨?_, ?_, ?_⟩ <;> decide)

/-- C3 counterexample: on that same entitlement, the older Delay of
src/holdings/ovid.go returns the parsed start delay instead of failing with the
mismatch error, so the claim fails for that copy of the function. -/
theorem entitlement_delay_ovid_cex :
    (⟨"", "", "", "", "", "", "-1M", "", "", "", "-2M"⟩ : Entitlement).DelayOvid =
      .ok (-2592000000000000)
  ∧ (⟨"", "", "", "", "", "", "-1M", "", "", "", "-2M"⟩ : Entitlement).DelayOvid ≠
      .error .delayMismatch := by
  constructor <;> decide

/-! ## Theorems for the filter claims -/

/-- C4: holdings-filter coverage is fail-closed. An ISSN with no entry in the
license table never matches, whatever the signature, and Apply is false when no
ISSN or e-ISSN of the record has a covering, wall-released license. -/
theorem holdingFilter_fail_closed (f : HoldingFilter) :
    (∀ signature issn, lookupLicenses f.Table issn = none →
      f.CoveredAndValid signature issn = false)
  ∧ (∀ is : IntermediateSchema,
      (∀ issn ∈ is.ISSN ++ is.EISSN,
        f.CoveredAndValid (CombineDatum (toString is.DateYear) is.Volume is.Issue "")
          issn = false) →
      f.Apply is = false) := by
  constructor
  · intro signature issn h
    unfold HoldingFilter.CoveredAndValid
    rw [h]
  · intro is h
    unfold HoldingFilter.Apply
    rw [List.any_eq_false]
    intro issn hmem
    rw [h issn hmem]
    exact Bool.false_ne_true

/-- C4 witness: with an empty license table, no ISSN of a concrete record
matches and Apply rejects the record. -/
theorem holdingFilter_fail_closed_witness :
    HoldingFilter.Apply ⟨0, []⟩ ⟨"49", ["1234-5678"], ["8765-4321"], 2010, "1", "1"⟩ =
      false :=
  (holdingFilter_fail_closed ⟨0, []⟩).2 ⟨"49", ["1234-5678"], ["8765-4321"], 2010, "1", "1"⟩
    (fun issn _ => (holdingFilter_fail_closed ⟨0, []⟩).1 _ issn rfl)

/-- Membership in the fold that builds the tag set. -/
theorem tags_fold_mem (is : IntermediateSchema) (t : List (String × List Filter))
    (acc : Finset String) (x : String) :
    (x ∈ t.foldl
      (fun acc p => if p.2.any (fun f => f.apply is) then insert p.1 acc else acc) acc) ↔
    x ∈ acc ∨ ∃ p ∈ t, x = p.1 ∧ p.2.any (fun f => f.apply is) = true := by
  induction t generalizing acc with
  | nil => simp
  | cons p rest ih =>
    rw [List.foldl_cons, ih]
    by_cases hp : p.2.any (fun f => f.apply is) = true
    · rw [if_pos hp]
      simp only [Finset.mem_insert, List.mem_cons]
      constructor
      · rintro (⟨rfl | hx⟩ | ⟨q, hq, hxq, happ⟩)
        · exact .inr ⟨p, .inl rfl, rfl, hp⟩
        · exact .inl hx
        · exact .inr ⟨q, .inr hq, hxq, happ⟩
      · rintro (hx | ⟨q, hq | hq, hxq, happ⟩)
        · exact .inl (.inr hx)
        · exact .inl (.inl (hq ▸ hxq))
        · exact .inr ⟨q, hq, hxq, happ⟩
    · rw [if_neg hp]
      simp only [List.mem_cons]
      constructor
      · rintro (hx | ⟨q, hq, hxq, happ⟩)
        · exact .inl hx
        · exact .inr ⟨q, .inr hq, hxq, happ⟩
      · rintro (hx | ⟨q, hq | hq, hxq, happ⟩)
        · exact .inl hx
        · exact absurd (hq ▸ happ) hp
        · exact .inr ⟨q, hq, hxq, happ⟩

/-- C8: Tags returns exactly the set of institutions with at least one filter
accepting the record (the filters of one institution are OR-combined), the
result does not depend on the iteration order over institutions, and an
institution with no accepting filter - in particular one with zero filters -
never appears. -/
theorem tags_spec (t : ISILTagger) (is : IntermediateSchema) :
    (∀ isil, isil ∈ tags t is ↔
      ∃ fs, (isil, fs) ∈ t ∧ ∃ f ∈ fs, f.apply is = true)
  ∧ (∀ t' : ISILTagger, List.Perm t t' → tags t is = tags t' is) := by
  have hchar : ∀ (t : ISILTagger) (isil : String), isil ∈ tags t is ↔
      ∃ fs, (isil, fs) ∈ t ∧ ∃ f ∈ fs, f.apply is = true := by
    intro t isil
    unfold tags
    rw [tags_fold_mem]
    simp only [Finset.not_mem_empty, false_or]
    constructor
    · rintro ⟨p, hp, rfl, happ⟩
      exact ⟨p.2, hp, List.any_eq_true.mp happ⟩
    · rintro ⟨fs, hmem, f, hf, happ⟩
      exact ⟨(isil, fs), hmem, rfl, List.any_eq_true.mpr ⟨f, hf, happ⟩⟩
  refine ⟨hchar t, fun t' hperm => ?_⟩
  apply Finset.ext
  intro x
  rw [hchar t, hchar t']
  constructor <;> rintro ⟨fs, hmem, hf⟩
  · exact ⟨fs, hperm.mem_iff.mp hmem, hf⟩
  · exact ⟨fs, hperm.mem_iff.mpr hmem, hf⟩

/-- C8 witness: a tagger with one institution whose only filter accepts
everything, and one with no filters, tags a record with the first only. -/
theorem tags_spec_witness :
    "A" ∈ tags [("A", [Filter.any]), ("B", [])] ⟨"", [], [], 0, "", ""⟩
  ∧ "B" ∉ tags [("A", [Filter.any]), ("B", [])] ⟨"", [], [], 0, "", ""⟩ :=
  ⟨(tags_spec [("A", [Filter.any]), ("B", [])] ⟨"", [], [], 0, "", ""⟩).1 "A" |>.mpr
    ⟨[Filter.any], List.mem_cons_self _ _, Filter.any, List.mem_singleton_self _, rfl⟩,
   fun hB => by
    obtain ⟨fs, hmem, f, hf, -⟩ :=
      ((tags_spec [("A", [Filter.any]), ("B", [])] ⟨"", [], [], 0, "", ""⟩).1 "B").mp hB
    rw [List.mem_cons, List.mem_singleton] at hmem
    rcases hmem with h | h
    · have hba : "B" = "A" := congrArg Prod.fst h
      exact absurd hba (by decide)
    · obtain rfl : fs = [] := congrArg Prod.snd h
      exact absurd hf (List.not_mem_nil f)⟩

/-- What one inner registration pass does to an arbitrary key. -/
theorem registerIds_apply (item : Holding) (ids : List String)
    (m : String → Option Holding) (key : String) :
    registerIds item ids m key =
      if isISSN key = true ∧ key ∈ ids.map trimS then some item else m key := by
  induction ids generalizing m with
  | nil => simp [registerIds]
  | cons s0 rest ih =>
    rw [registerIds, ih]
    rw [apply_ite (fun g : String → Option Holding => g key)]
    simp only [List.map_cons, List.mem_cons]
    by_cases hk : isISSN key = true
    · by_cases hr : key ∈ rest.map trimS
      · simp [hk, hr]
      · by_cases he : key = trimS s0
        · subst he
          simp [hk, hr]
        · by_cases hs : isISSN (trimS s0) = true <;> simp [hk, hr, he, hs]
    · by_cases hs : isISSN (trimS s0) = true
      · have he : key ≠ trimS s0 := fun he => hk (by rw [he]; exact hs)
        simp [hk, hs, he]
      · simp [hk, hs]

/-- What registering one holding (e-ISSNs then print-ISSNs) does to a key. -/
theorem registerItem_apply (item : Holding) (m : String → Option Holding)
    (key : String) :
    registerIds item item.PISSN (registerIds item item.EISSN m) key =
      if isISSN key = true ∧ key ∈ trimmedIds item then some item else m key := by
  rw [registerIds_apply, registerIds_apply]
  unfold trimmedIds
  by_cases hk : isISSN key = true
  · by_cases hp : key ∈ item.PISSN.map trimS
    · rw [if_pos ⟨hk, hp⟩, if_pos ⟨hk, by simp [hp]⟩]
    · rw [if_neg (fun hc => hp hc.2)]
      by_cases he : key ∈ item.EISSN.map trimS
      · rw [if_pos ⟨hk, he⟩, if_pos ⟨hk, by simp [he]⟩]
      · rw [if_neg (fun hc => he hc.2)]
        have : ¬(isISSN key = true ∧ key ∈ item.EISSN.map trimS ++ item.PISSN.map trimS) := by
          rintro ⟨-, hmem⟩
          rcases List.mem_append.mp hmem with h | h
          · exact he h
          · exact hp h
        rw [if_neg this]
  · rw [if_neg (fun hc => hk hc.1), if_neg (fun hc => hk hc.1),
      if_neg (fun hc => hk hc.1)]

/-- The fold over holdings, from an arbitrary starting map: a canonical key
goes to the last holding listing it, if any; a non-canonical key is never
touched. -/
theorem holdingsFrom_apply (hs : List Holding) (m : String → Option Holding)
    (key : String) :
    holdingsFrom hs m key =
      if isISSN key = true then
        match lastListing hs key with
        | some h => some h
        | none => m key
      else m key := by
  induction hs generalizing m with
  | nil =>
    unfold holdingsFrom lastListing
    by_cases hk : isISSN key = true
    · rw [if_pos hk]
    · rw [if_neg hk]
  | cons item rest ih =>
    rw [holdingsFrom, ih, registerItem_apply]
    by_cases hk : isISSN key = true
    · rw [if_pos hk, if_pos hk]
      have heq : lastListing (item :: rest) key =
          match lastListing rest key with
          | some h => some h
          | none => if key ∈ trimmedIds item then some item else none := rfl
      rw [heq]
      rcases lastListing rest key with _ | h
      · by_cases hmem : key ∈ trimmedIds item <;> simp [hmem, hk]
      · rfl
    · rw [if_neg hk, if_neg hk, if_neg (fun hc => hk hc.1)]

/-- C9: HoldingsMap registers each decoded holding under exactly those of its
e-ISSN and print-ISSN strings that, after trimming, match the canonical
DDDD-DDDD pattern - a key failing the pattern is silently absent - and when
several holdings list the same ISSN the last one wins, so every ISSN maps to
at most one holding: the map at any key is the last holding listing that key,
when the key is canonical, and nothing otherwise. -/
theorem holdingsMap_spec (hs : List Holding) (key : String) :
    HoldingsMap hs key = if isISSN key = true then lastListing hs key else none := by
  unfold HoldingsMap
  rw [holdingsFrom_apply]
  by_cases hk : isISSN key = true
  · rw [if_pos hk, if_pos hk]
    rcases lastListing hs key with _ | h <;> rfl
  · rw [if_neg hk, if_neg hk]

/-- Splitting a digit-string hypothesis at a cons. -/
theorem allDigits_cons {c : Char} {cs : List Char} :
    allDigits (c :: cs) = true ↔ (48 ≤ c.toNat ∧ c.toNat ≤ 57) ∧ allDigits cs = true := by
  simp [allDigits, List.all_cons, Bool.and_eq_true, decide_eq_true_eq]

/-- The value of a digit string is below the power of ten of its length. -/
theorem strVal_lt_pow {s : List Char} (hs : allDigits s = true) :
    strVal s < 10 ^ s.length := by
  induction s with
  | nil => simp [strVal]
  | cons c cs ih =>
    obtain ⟨hc, hcs⟩ := allDigits_cons.mp hs
    have h9 : digitVal c ≤ 9 := by unfold digitVal; omega
    have hv := ih hcs
    rw [strVal, List.length_cons]
    calc digitVal c * 10 ^ cs.length + strVal cs
        ≤ 9 * 10 ^ cs.length + strVal cs :=
          Nat.add_le_add_right (Nat.mul_le_mul_right _ h9) _
      _ < 9 * 10 ^ cs.length + 10 ^ cs.length := by omega
      _ = 10 ^ (cs.length + 1) := by ring

/-- A bigger leading digit dominates whatever the tails are, as long as the
first tail's value stays below the power of ten of the common length. -/
theorem strVal_head_lt (dc dd v1 v2 k : Nat) (hdc : dc < dd) (hv1 : v1 < 10 ^ k) :
    dc * 10 ^ k + v1 < dd * 10 ^ k + v2 := by
  calc dc * 10 ^ k + v1 < dc * 10 ^ k + 10 ^ k := by omega
    _ = (dc + 1) * 10 ^ k := by ring
    _ ≤ dd * 10 ^ k := Nat.mul_le_mul_right _ hdc
    _ ≤ dd * 10 ^ k + v2 := Nat.le_add_right _ _

/-- Leading zeros do not change the value of a digit string. -/
theorem strVal_replicate_zero (k : Nat) (s : List Char) :
    strVal (List.replicate k '0' ++ s) = strVal s := by
  induction k with
  | zero => simp
  | succ n ih =>
    rw [List.replicate_succ, List.cons_append, strVal, ih]
    rw [show digitVal '0' = 0 from rfl]
    ring

/-- The value of a padded string is the value of the string. -/
theorem strVal_padL (n : Nat) (s : List Char) : strVal (padL n s) = strVal s :=
  strVal_replicate_zero _ _

/-- A string within the width pads to exactly the width. -/
theorem padL_length {n : Nat} {s : List Char} (h : s.length ≤ n) :
    (padL n s).length = n := by
  unfold padL
  rw [List.length_append, List.length_replicate]
  omega

/-- Padding with zeros keeps a digit string a digit string. -/
theorem allDigits_padL {n : Nat} {s : List Char} (h : allDigits s = true) :
    allDigits (padL n s) = true := by
  unfold padL allDigits
  rw [List.all_append, Bool.and_eq_true]
  refine ⟨?_, h⟩
  rw [List.all_eq_true]
  intro c hc
  rw [List.eq_of_mem_replicate hc]
  decide

/-- On digit strings of equal length, the lexicographic order is the numeric
order of the values. -/
theorem lexLt_eqlen (a : List Char) : ∀ b : List Char, allDigits a = true →
    allDigits b = true → a.length = b.length →
    (lexLt a b = true ↔ strVal a < strVal b) := by
  induction a with
  | nil =>
    intro b _ _ hlen
    have hb : b = [] := List.length_eq_zero.mp hlen.symm
    subst hb
    simp [lexLt, strVal]
  | cons c cs ih =>
    intro b ha hb hlen
    rcases b with _ | ⟨d, ds⟩
    · exact absurd hlen (by simp)
    · obtain ⟨hc, hcs⟩ := allDigits_cons.mp ha
      obtain ⟨hd, hds⟩ := allDigits_cons.mp hb
      have hk : ds.length = cs.length := by simpa using hlen.symm
      simp only [lexLt, strVal, hk]
      rcases Nat.lt_trichotomy c.toNat d.toNat with hlt | heq | hgt
      · have h2 : ¬ d.toNat < c.toNat := by omega
        simp only [if_pos hlt, if_neg h2]
        have hdc : digitVal c < digitVal d := by unfold digitVal; omega
        have hab := strVal_head_lt _ _ _ (strVal ds) _ hdc (strVal_lt_pow hcs)
        simp [hab]
      · have h1 : ¬ c.toNat < d.toNat := by omega
        have h2 : ¬ d.toNat < c.toNat := by omega
        simp only [if_neg h1, if_neg h2]
        have hdc : digitVal c = digitVal d := by unfold digitVal; omega
        rw [hdc, add_lt_add_iff_left]
        exact ih ds hcs hds (by omega)
      · have h1 : ¬ c.toNat < d.toNat := by omega
        simp only [if_neg h1, if_pos hgt]
        have hdc : digitVal d < digitVal c := by unfold digitVal; omega
        have hv1 : strVal ds < 10 ^ cs.length := hk ▸ strVal_lt_pow hds
        have hba := strVal_head_lt _ _ _ (strVal cs) _ hdc hv1
        constructor
        · intro hfalse
          exact absurd hfalse (by simp)
        · intro hlt'
          omega

/-- Turning a boolean characterization of truth into one of falsity. -/
theorem bool_eq_false_iff_not {b : Bool} {p : Prop} (h : b = true ↔ p) :
    b = false ↔ ¬ p := by
  rw [← Bool.not_eq_true]
  exact not_congr h

/-- Lexicographic comparison of two appends with prefixes of the same length:
the prefixes decide unless they are lexicographically incomparable, in which
case the suffixes decide. -/
theorem lexLt_append_eqlen (a1 : List Char) : ∀ (a2 r1 r2 : List Char),
    a1.length = a2.length →
    (lexLt (a1 ++ r1) (a2 ++ r2) = true ↔
      (lexLt a1 a2 = true ∨
        (lexLt a1 a2 = false ∧ lexLt a2 a1 = false ∧ lexLt r1 r2 = true))) := by
  induction a1 with
  | nil =>
    intro a2 r1 r2 hlen
    have hb : a2 = [] := List.length_eq_zero.mp hlen.symm
    subst hb
    simp [lexLt]
  | cons c cs ih =>
    intro a2 r1 r2 hlen
    rcases a2 with _ | ⟨d, ds⟩
    · exact absurd hlen (by simp)
    · simp only [List.cons_append, lexLt]
      rcases Nat.lt_trichotomy c.toNat d.toNat with hlt | heq | hgt
      · have h2 : ¬ d.toNat < c.toNat := by omega
        simp only [if_pos hlt, if_neg h2]
        simp
      · have h1 : ¬ c.toNat < d.toNat := by omega
        have h2 : ¬ d.toNat < c.toNat := by omega
        simp only [if_neg h1, if_neg h2]
        exact ih ds r1 r2 (by simpa using hlen)
      · have h1 : ¬ c.toNat < d.toNat := by omega
        simp only [if_neg h1, if_pos hgt]
        simp

/-- C6 at the level of character lists: for digit strings within the widths
4, 6, 6, the numeric tuple order is the lexicographic order of the padded
concatenations. -/
theorem combine_mono_chars {y1 v1 i1 y2 v2 i2 : List Char}
    (hy1 : allDigits y1 = true) (hv1 : allDigits v1 = true) (hi1 : allDigits i1 = true)
    (hy2 : allDigits y2 = true) (hv2 : allDigits v2 = true) (hi2 : allDigits i2 = true)
    (hly1 : y1.length ≤ 4) (hlv1 : v1.length ≤ 6) (hli1 : i1.length ≤ 6)
    (hly2 : y2.length ≤ 4) (hlv2 : v2.length ≤ 6) (hli2 : i2.length ≤ 6) :
    tupleLt (strVal y1, strVal v1, strVal i1) (strVal y2, strVal v2, strVal i2) ↔
    lexLt (padL 4 y1 ++ (padL 6 v1 ++ padL 6 i1))
      (padL 4 y2 ++ (padL 6 v2 ++ padL 6 i2)) = true := by
  have eY : lexLt (padL 4 y1) (padL 4 y2) = true ↔ strVal y1 < strVal y2 := by
    rw [lexLt_eqlen _ _ (allDigits_padL hy1) (allDigits_padL hy2)
      (by rw [padL_length hly1, padL_length hly2]), strVal_padL, strVal_padL]
  have eYr : lexLt (padL 4 y2) (padL 4 y1) = true ↔ strVal y2 < strVal y1 := by
    rw [lexLt_eqlen _ _ (allDigits_padL hy2) (allDigits_padL hy1)
      (by rw [padL_length hly1, padL_length hly2]), strVal_padL, strVal_padL]
  have eV : lexLt (padL 6 v1) (padL 6 v2) = true ↔ strVal v1 < strVal v2 := by
    rw [lexLt_eqlen _ _ (allDigits_padL hv1) (allDigits_padL hv2)
      (by rw [padL_length hlv1, padL_length hlv2]), strVal_padL, strVal_padL]
  have eVr : lexLt (padL 6 v2) (padL 6 v1) = true ↔ strVal v2 < strVal v1 := by
    rw [lexLt_eqlen _ _ (allDigits_padL hv2) (allDigits_padL hv1)
      (by rw [padL_length hlv1, padL_length hlv2]), strVal_padL, strVal_padL]
  have eI : lexLt (padL 6 i1) (padL 6 i2) = true ↔ strVal i1 < strVal i2 := by
    rw [lexLt_eqlen _ _ (allDigits_padL hi1) (allDigits_padL hi2)
      (by rw [padL_length hli1, padL_length hli2]), strVal_padL, strVal_padL]
  rw [lexLt_append_eqlen _ _ _ _ (by rw [padL_length hly1, padL_length hly2]),
    lexLt_append_eqlen _ _ _ _ (by rw [padL_length hlv1, padL_length hlv2])]
  rw [bool_eq_false_iff_not eY, bool_eq_false_iff_not eYr,
    bool_eq_false_iff_not eV, bool_eq_false_iff_not eVr]
  rw [eY, eV, eI]
  simp only [tupleLt]
  omega

/-- The data of a zero-padded string. -/
theorem padZero_data (n : Nat) (s : String) : (padZero n s).data = padL n s.data := rfl

/-- String append acts as list append on the underlying characters. -/
theorem string_append_data (a b : String) : (a ++ b).data = a.data ++ b.data :=
  String.data_append a b

/-- The data of a combined datum with an empty sentinel: the three padded
components, concatenated. -/
theorem combineDatum_empty_data (y v i : String) :
    (CombineDatum y v i "").data =
      padL 4 y.data ++ (padL 6 v.data ++ padL 6 i.data) := by
  unfold CombineDatum
  rw [if_neg (by rintro ⟨-, -, -, h⟩; exact h rfl)]
  rw [string_append_data, string_append_data, padZero_data, padZero_data,
    padZero_data, List.append_assoc]

/-- C6: CombineDatum with an empty sentinel is order-preserving: for digit
components within the widths 4, 6 and 6, one (year, volume, issue) tuple
precedes another in numeric lexicographic order exactly when the combined
datum strings compare the same way lexicographically. -/
theorem combineDatum_mono (y1 v1 i1 y2 v2 i2 : String)
    (hy1 : allDigits y1.data = true) (hv1 : allDigits v1.data = true)
    (hi1 : allDigits i1.data = true) (hy2 : allDigits y2.data = true)
    (hv2 : allDigits v2.data = true) (hi2 : allDigits i2.data = true)
    (hly1 : y1.data.length ≤ 4) (hlv1 : v1.data.length ≤ 6)
    (hli1 : i1.data.length ≤ 6) (hly2 : y2.data.length ≤ 4)
    (hlv2 : v2.data.length ≤ 6) (hli2 : i2.data.length ≤ 6) :
    tupleLt (strValS y1, strValS v1, strValS i1)
      (strValS y2, strValS v2, strValS i2) ↔
    strLt (CombineDatum y1 v1 i1 "") (CombineDatum y2 v2 i2 "") = true := by
  unfold strLt strValS
  rw [combineDatum_empty_data, combineDatum_empty_data]
  exact combine_mono_chars hy1 hv1 hi1 hy2 hv2 hi2 hly1 hlv1 hli1 hly2 hlv2 hli2

/-- C6 witness: (1999, 12, 3) precedes (2000, 1, 1) and so do the combined
datum strings. -/
theorem combineDatum_mono_witness :
    tupleLt (strValS "1999", strValS "12", strValS "3")
      (strValS "2000", strValS "1", strValS "1")
  ∧ strLt (CombineDatum "1999" "12" "3" "") (CombineDatum "2000" "1" "1" "") = true :=
  ⟨by decide,
   (combineDatum_mono "1999" "12" "3" "2000" "1" "1" (by decide) (by decide)
      (by decide) (by decide) (by decide) (by decide) (by decide) (by decide)
      (by decide) (by decide) (by decide) (by decide)).mp (by decide)⟩

end Span
